import Mathlib

/-!
Verification of the drag-drop task-board application against its specification.

The source is a TypeScript single-page app: an observable `ProjectState` store of
work items, a `validate` helper, and list/item/input views wired by drag-and-drop.
Pure functions are embedded as Lean functions; the store's mutations are embedded
as state-passing functions that also return the list of subscriber notifications
they emit (each notification pairs a listener token, in registration order, with
the snapshot handed to it).  DOM side effects (class lists, `preventDefault`) are
embedded as explicit result fields.  `Math.random().toString()` identities are
embedded as an explicit identity argument supplied at each `addProject` call.
-/

/-- `enum ProjectStatus { Active, Finished }`. -/
inductive ProjectStatus
  | active
  | finished
deriving DecidableEq, Repr

/-- `class Project { id; title; description; people; status }`. -/
structure Project where
  id : String
  title : String
  description : String
  people : Int
  status : ProjectStatus
deriving DecidableEq, Repr

/-- Listener functions are opaque callbacks; the embedding tracks each one by an
abstract registration token.  Their view-side behaviour is embedded separately
(`listenerUpdate` below). -/
abbrev ListenerId := Nat

/-- `ProjectState`: the projects array and the registered listeners, in
registration order. -/
structure ProjectState where
  projects : List Project
  listeners : List ListenerId
deriving DecidableEq, Repr

/-- One subscriber notification: which listener was invoked and the snapshot
array it received. -/
structure Notification where
  listener : ListenerId
  snapshot : List Project
deriving DecidableEq, Repr

/-- `addListener(listenerFunction) { this.listeners.push(listenerFunction); }` -/
def addListener (st : ProjectState) (l : ListenerId) : ProjectState :=
  { st with listeners := st.listeners ++ [l] }

/-- `addProject(title, description, people)`: constructs the new project with a
fresh identity (the `id` argument embeds `Math.random().toString()`) and status
Active, pushes it, then calls every listener with `this.projects.slice()`.
Returns the new state and the notifications emitted, in listener order. -/
def addProject (st : ProjectState) (id title description : String)
    (people : Int) : ProjectState × List Notification :=
  let newProject : Project := ⟨id, title, description, people, .active⟩
  let projects := st.projects ++ [newProject]
  (⟨projects, st.listeners⟩, st.listeners.map fun l => ⟨l, projects⟩)

/-- Sets the status of the first project whose id matches; used by the
spec-modelled `moveProject`. -/
def setStatusFirst : List Project → String → ProjectStatus → List Project
  | [], _, _ => []
  | p :: ps, id, s =>
    if p.id == id then { p with status := s } :: ps
    else p :: setStatusFirst ps id s

/-- Modelled from the spec: `ProjectState.moveProject` lives in
`src/state/project-state.ts`, which is not among the provided sources (only its
caller `ProjectList.dropHandler` is).  Per the spec: it locates the work item
with the given identity; if none exists the call is a no-op that must not fail
and must not notify; if found, it sets that item's status field and
synchronously invokes every subscriber with a full snapshot, in registration
order. -/
def moveProject (st : ProjectState) (id : String) (newStatus : ProjectStatus) :
    ProjectState × List Notification :=
  if st.projects.any (fun p => p.id == id) then
    let projects := setStatusFirst st.projects id newStatus
    (⟨projects, st.listeners⟩, st.listeners.map fun l => ⟨l, projects⟩)
  else
    (st, [])

/-- A JavaScript `string | number` value as used by `Validatable.value`. -/
inductive JSValue
  | str (s : String)
  | num (n : Int)
deriving DecidableEq, Repr

/-- JavaScript `value.toString()` on a `string | number`: identity on strings,
decimal rendering on numbers (never empty, never whitespace-only). -/
def JSValue.toJSString : JSValue → String
  | .str s => s
  | .num n => toString n

/-- JavaScript `String.prototype.trim`: strips leading and trailing
whitespace. -/
def jsTrim (s : String) : String :=
  String.mk
    (((s.data.dropWhile Char.isWhitespace).reverse.dropWhile
        Char.isWhitespace).reverse)

/-- `interface Validatable`; absent optional fields are `false`/`none`. -/
structure Validatable where
  value : JSValue
  required : Bool := false
  minLength : Option Int := none
  maxLength : Option Int := none
  min : Option Int := none
  max : Option Int := none

/-- `function validate(input: Validatable)`, clause by clause.  Note the
`required` clause of the source really tests `trim().length === 0`, i.e. it
keeps `isValid` true when the trimmed value is EMPTY. -/
def validate (input : Validatable) : Bool :=
  let isValid := true
  let isValid :=
    if input.required then
      isValid && ((jsTrim input.value.toJSString).length == 0)
    else isValid
  let isValid :=
    match input.minLength, input.value with
    | some ml, .str s => isValid && decide (ml ≤ (s.length : Int))
    | _, _ => isValid
  let isValid :=
    match input.maxLength, input.value with
    | some ml, .str s => isValid && decide ((s.length : Int) ≤ ml)
    | _, _ => isValid
  let isValid :=
    match input.min, input.value with
    | some m, .num n => isValid && decide (m ≤ n)
    | _, _ => isValid
  let isValid :=
    match input.max, input.value with
    | some m, .num n => isValid && decide (n ≤ m)
    | _, _ => isValid
  isValid

/-- One input to `addProject`, the generated identity included. -/
structure AddInput where
  id : String
  title : String
  description : String
  people : Int
deriving DecidableEq, Repr

/-- The project that `addProject` constructs from one input. -/
def mkProject (a : AddInput) : Project :=
  ⟨a.id, a.title, a.description, a.people, .active⟩

/-- Runs a sequence of `addProject` calls, threading the store state. -/
def runAdds (st : ProjectState) : List AddInput → ProjectState
  | [] => st
  | a :: rest => runAdds (addProject st a.id a.title a.description a.people).1 rest

/-- The `'active' | 'finished'` list category. -/
inductive ListType
  | active
  | finished
deriving DecidableEq, Repr

/-- The target status a list derives from its own category, as in
`this.type == 'active' ? ProjectStatus.Active : ProjectStatus.Finished`. -/
def ListType.targetStatus : ListType → ProjectStatus
  | .active => .active
  | .finished => .finished

/-- The state of a `ProjectList` view that the store listener updates. -/
structure ProjectList where
  type : ListType
  assignedProjects : List Project
deriving DecidableEq, Repr

/-- The listener that `ProjectList.configure` registers with the store: filters
the received snapshot by this list's category and replaces `assignedProjects`
with the result (then re-renders, see `renderProjects`). -/
def listenerUpdate (pl : ProjectList) (projects : List Project) : ProjectList :=
  let relevantProjects := projects.filter fun proj =>
    if pl.type = ListType.active then proj.status == ProjectStatus.active
    else proj.status == ProjectStatus.finished
  { pl with assignedProjects := relevantProjects }

/-- `ProjectList.renderProjects`: clears the list element (`innerHTML = ''`)
and constructs one `ProjectItem` per assigned project, in order; each item's
root element id is its project's id.  The rendering is embedded as the ordered
list of rendered item element ids. -/
def renderProjects (pl : ProjectList) : List String :=
  pl.assignedProjects.map fun p => p.id

/-- The platform drag payload: typed data entries plus the allowed effect.
`setData` prepends (JS overwrites; lookup takes the first entry), `getData`
returns `''` for an absent type, as the platform does. -/
structure DataTransfer where
  data : List (String × String)
  effectAllowed : String
deriving DecidableEq, Repr

/-- `DataTransfer.setData(type, value)`. -/
def DataTransfer.setData (dt : DataTransfer) (ty v : String) : DataTransfer :=
  { dt with data := (ty, v) :: dt.data }

/-- `DataTransfer.getData(type)`: the stored string, or `''` if absent. -/
def DataTransfer.getData (dt : DataTransfer) (ty : String) : String :=
  match dt.data.lookup ty with
  | some v => v
  | none => ""

/-- `ProjectItem.dragStartHandler`: writes the bound project's id under
`'text/plain'` and sets `effectAllowed = 'move'`. -/
def dragStartHandler (project : Project) (dt : DataTransfer) : DataTransfer :=
  let dt1 := dt.setData "text/plain" project.id
  { dt1 with effectAllowed := "move" }

/-- The observable outcome of `ProjectList.dragOverHandler`: whether it called
`event.preventDefault()` and whether it added the `'droppable'` class to the
list's `ul` element. -/
structure DragOverResult where
  preventDefault : Bool
  droppableAdded : Bool
deriving DecidableEq, Repr

/-- `ProjectList.dragOverHandler`: acts only when `event.dataTransfer` is
present and `event.dataTransfer.types[0] === 'text/plain'` (an empty `types`
array yields `undefined`, which fails the comparison). -/
def dragOverHandler (dataTransferTypes : Option (List String)) : DragOverResult :=
  match dataTransferTypes with
  | some types =>
    if types.head? == some "text/plain" then ⟨true, true⟩ else ⟨false, false⟩
  | none => ⟨false, false⟩

/-- `ProjectList.dropHandler`: reads the id from the `'text/plain'` payload and
calls `projectState.moveProject` with the status derived from this list's
category. -/
def dropHandler (ty : ListType) (dt : DataTransfer) (st : ProjectState) :
    ProjectState × List Notification :=
  let projectId := dt.getData "text/plain"
  moveProject st projectId ty.targetStatus

/-- `ProjectInput.gatherUserInput` (part_000): builds the three `Validatable`
configurations, alerts and returns nothing when
`validate(t) || validate(d) || validate(p)`, else returns the tuple.  The
`people` argument embeds the already-converted number `+people`. -/
def gatherUserInput (title description : String) (people : Int) :
    Option (String × String × Int) :=
  let titleValidatable : Validatable := { value := .str title, required := true }
  let descriptionValidatable : Validatable :=
    { value := .str description, required := true, minLength := some 5 }
  let peopleValidatable : Validatable :=
    { value := .num people, required := true, min := some 0, max := some 10 }
  if validate titleValidatable || validate descriptionValidatable ||
      validate peopleValidatable then
    none
  else
    some (title, description, people)

/-- `ProjectInput.submitHandler` (part_000): if `gatherUserInput` produced a
tuple, commits it via `projectState.addProject` (the `freshId` argument embeds
the generated identity); otherwise nothing happens. -/
def submitHandler (st : ProjectState) (title description : String)
    (people : Int) (freshId : String) : ProjectState × List Notification :=
  match gatherUserInput title description people with
  | some (t, d, p) => addProject st freshId t d p
  | none => (st, [])

/-- The heap of array objects: cell `a` holds the array at address `a`.
Addresses are naturals.  The heap model below re-embeds `addProject` with
explicit array references, so that the aliasing content of the
snapshot-independence invariant (each listener gets its own `slice()`) can be
stated. -/
structure Heap where
  cells : List (List Project)
deriving DecidableEq, Repr

/-- Dereference an array address. -/
def Heap.read (h : Heap) (a : Nat) : List Project :=
  h.cells.getD a []

/-- Mutate the array object at an address in place. -/
def Heap.write (h : Heap) (a : Nat) (v : List Project) : Heap :=
  ⟨h.cells.set a v⟩

/-- Allocate a fresh array object (this is what `slice()` does) and return its
address. -/
def Heap.alloc (h : Heap) (v : List Project) : Heap × Nat :=
  (⟨h.cells ++ [v]⟩, h.cells.length)

/-- The store as seen by the heap model: the address of `this.projects` and the
number of registered listeners. -/
structure StoreRef where
  projectsAddr : Nat
  numListeners : Nat
deriving DecidableEq, Repr

/-- The notification loop of `addProject`: for each listener, in order,
allocate a fresh copy of the current projects array (`this.projects.slice()`)
and hand the listener its address.  Returns the heap and the delivered
addresses, in listener order. -/
def notifySlices (pa : Nat) : Nat → Heap → Heap × List Nat
  | 0, h => (h, [])
  | n + 1, h =>
    let alloc1 := h.alloc (h.read pa)
    let rest := notifySlices pa n alloc1.1
    (rest.1, alloc1.2 :: rest.2)

/-- `addProject` in the heap model: push the new project onto the array object
at `projectsAddr` (in place), then run the notification loop. -/
def addProjectRef (h : Heap) (st : StoreRef) (id title description : String)
    (people : Int) : Heap × List Nat :=
  let p : Project := ⟨id, title, description, people, .active⟩
  let h1 := h.write st.projectsAddr (h.read st.projectsAddr ++ [p])
  notifySlices st.projectsAddr st.numListeners h1

/-- The snapshot-independence property of one `addProjectRef` call, at final
heap `h1` with delivered snapshot addresses `snaps`: the addresses are pairwise
distinct and distinct from the store's array; each holds the full current
sequence; writing to one snapshot changes neither another snapshot nor the
store; and a subsequent `addProjectRef` leaves every delivered snapshot
unchanged. -/
def SnapIndep (st : StoreRef) (h1 : Heap) (snaps : List Nat) : Prop :=
  snaps.length = st.numListeners ∧
  snaps.Pairwise (· ≠ ·) ∧
  (∀ a ∈ snaps, a ≠ st.projectsAddr) ∧
  (∀ a ∈ snaps, h1.read a = h1.read st.projectsAddr) ∧
  (∀ a ∈ snaps, ∀ v : List Project,
    (∀ b ∈ snaps, b ≠ a → (h1.write a v).read b = h1.read b) ∧
    (h1.write a v).read st.projectsAddr = h1.read st.projectsAddr) ∧
  (∀ a ∈ snaps, ∀ id2 title2 description2 : String, ∀ people2 : Int,
    (addProjectRef h1 st id2 title2 description2 people2).1.read a = h1.read a)

/-- A sample work item, as in the spec scenarios. -/
def sampleA : Project := ⟨"a", "Build API", "Implement REST endpoints", 3, .active⟩

/-- A second sample work item. -/
def sampleB : Project := ⟨"b", "Design UI", "Mockups and wireframes", 2, .active⟩

/-- Claim C1, code evaluation: the `required` clause is inverted in the source,
so `validate` accepts the empty string and rejects a non-empty one. -/
theorem validate_required_inverted :
    validate { value := .str "", required := true } = true ∧
    validate { value := .str "hello", required := true, minLength := some 3 } = false ∧
    validate { value := .num 11, min := some 0, max := some 10 } = false := by
  refine ⟨by decide, by decide, by decide⟩

/-- Helper: running a sequence of adds appends the constructed projects in
order and preserves the listener list. -/
theorem runAdds_projects (inputs : List AddInput) :
    ∀ st : ProjectState,
      (runAdds st inputs).projects = st.projects ++ inputs.map mkProject ∧
      (runAdds st inputs).listeners = st.listeners := by
  induction inputs with
  | nil => intro st; simp [runAdds]
  | cons a rest ih =>
    intro st
    have h := ih (addProject st a.id a.title a.description a.people).1
    simp only [runAdds] at *
    rw [h.1, h.2]
    simp [addProject, mkProject]

/-- Claim C3: every `addProject` appends a fresh Active item at the end,
notifies every listener in registration order with the full sequence, and for
every sequence of adds from the empty store the final sequence is exactly the
constructed items in insertion order (hence its length is the number of adds
and every item is Active). -/
theorem addProject_sequence_spec :
    (∀ (st : ProjectState) (a : AddInput),
      (addProject st a.id a.title a.description a.people).1.projects
          = st.projects ++ [mkProject a] ∧
      (addProject st a.id a.title a.description a.people).1.listeners
          = st.listeners ∧
      (addProject st a.id a.title a.description a.people).2
          = st.listeners.map (fun l => ⟨l, st.projects ++ [mkProject a]⟩)) ∧
    (∀ (inputs : List AddInput) (ls : List ListenerId),
      (runAdds ⟨[], ls⟩ inputs).projects = inputs.map mkProject ∧
      (runAdds ⟨[], ls⟩ inputs).projects.length = inputs.length ∧
      ∀ p ∈ (runAdds ⟨[], ls⟩ inputs).projects, p.status = ProjectStatus.active) := by
  constructor
  · intro st a
    exact ⟨rfl, rfl, rfl⟩
  · intro inputs ls
    have h := (runAdds_projects inputs ⟨[], ls⟩).1
    simp only at h
    rw [h]
    refine ⟨by simp, by simp, ?_⟩
    intro p hp
    obtain ⟨a, _, rfl⟩ := List.mem_map.mp hp
    rfl

/-- Claim C3 witness: two adds from the empty store yield both items, Active,
in insertion order. -/
theorem addProject_sequence_spec_witness :
    sampleA ∈ (runAdds ⟨[], [0]⟩ [⟨"a", "Build API", "Implement REST endpoints", 3⟩,
        ⟨"b", "Design UI", "Mockups and wireframes", 2⟩]).projects ∧
    sampleA.status = ProjectStatus.active ∧
    (runAdds ⟨[], [0]⟩ [⟨"a", "Build API", "Implement REST endpoints", 3⟩,
        ⟨"b", "Design UI", "Mockups and wireframes", 2⟩]).projects
      = [sampleA, sampleB] := by
  refine ⟨by decide, ?_, by decide⟩
  exact (addProject_sequence_spec.2
      [⟨"a", "Build API", "Implement REST endpoints", 3⟩,
       ⟨"b", "Design UI", "Mockups and wireframes", 2⟩] [0]).2.2 sampleA (by decide)

/-- Claim C5: after any notification the list's held subset is exactly the
received snapshot filtered by the list's category, in snapshot order, with the
rebuilt rendering mirroring it one item per project; the previous held subset
does not appear in the result. -/
theorem listenerUpdate_render_spec :
    ∀ (pl : ProjectList) (snapshot : List Project),
      (listenerUpdate pl snapshot).type = pl.type ∧
      (listenerUpdate pl snapshot).assignedProjects
          = snapshot.filter (fun p => p.status == pl.type.targetStatus) ∧
      renderProjects (listenerUpdate pl snapshot)
          = (snapshot.filter (fun p => p.status == pl.type.targetStatus)).map
              (fun p => p.id) := by
  intro pl snapshot
  obtain ⟨ty, old⟩ := pl
  cases ty <;>
    simp [listenerUpdate, renderProjects, ListType.targetStatus]

/-- Claim C10: `validate` guards every length bound by `typeof value ===
'string'` and every numeric bound by `typeof value === 'number'`, so bounds of
the non-matching type are ignored, and with `required` false and no matching
bounds present the input validates to true. -/
theorem validate_type_guard_spec :
    (∀ (n : Int) (r : Bool) (ml Ml mn mx : Option Int),
      validate { value := .num n, required := r, minLength := ml,
                 maxLength := Ml, min := mn, max := mx }
        = validate { value := .num n, required := r, min := mn, max := mx }) ∧
    (∀ (s : String) (r : Bool) (ml Ml mn mx : Option Int),
      validate { value := .str s, required := r, minLength := ml,
                 maxLength := Ml, min := mn, max := mx }
        = validate { value := .str s, required := r, minLength := ml,
                     maxLength := Ml }) ∧
    (∀ (n : Int) (ml Ml : Option Int),
      validate { value := .num n, minLength := ml, maxLength := Ml } = true) ∧
    (∀ (s : String) (mn mx : Option Int),
      validate { value := .str s, min := mn, max := mx } = true) ∧
    (∀ v : JSValue, validate { value := v } = true) := by
  refine ⟨?_, ?_, ?_, ?_, ?_⟩
  · intro n r ml Ml mn mx
    cases ml <;> cases Ml <;> rfl
  · intro s r ml Ml mn mx
    cases mn <;> cases mx <;> rfl
  · intro n ml Ml
    cases ml <;> cases Ml <;> rfl
  · intro s mn mx
    cases mn <;> cases mx <;> rfl
  · intro v
    cases v <;> rfl

/-- Claim C7, counterexample: a payload advertising `text/plain` as its second
type is ignored by `dragOverHandler`, which only inspects `types[0]`. -/
theorem dragOverHandler_second_type_ignored :
    "text/plain" ∈ ["text/html", "text/plain"] ∧
    dragOverHandler (some ["text/html", "text/plain"]) = ⟨false, false⟩ := by
  exact ⟨by decide, by decide⟩

/-- Claim C7 as amended: `dragOverHandler` prevents default and applies the
droppable marker exactly when a payload is present and its FIRST advertised
type is `text/plain`; in every other case it leaves both untouched. -/
theorem dragOverHandler_first_type_spec :
    ∀ dt : Option (List String),
      (dragOverHandler dt = ⟨true, true⟩ ↔
        ∃ ts, dt = some ts ∧ ts.head? = some "text/plain") ∧
      (dragOverHandler dt = ⟨true, true⟩ ∨ dragOverHandler dt = ⟨false, false⟩) := by
  intro dt
  cases dt with
  | none =>
    constructor
    · simp [dragOverHandler]
    · exact Or.inr rfl
  | some ts =>
    by_cases h : ts.head? = some "text/plain"
    · constructor
      · simp [dragOverHandler, h]
      · exact Or.inl (by simp [dragOverHandler, h])
    · constructor
      · simp [dragOverHandler, h]
      · exact Or.inr (by simp [dragOverHandler, h])

/-- Claim C8: drag start writes exactly the bound item's identity under
`text/plain` and sets the allowed effect to `move`; a subsequent drop on either
list calls `moveProject` with that same identity and the status derived from
the list's category. -/
theorem dragStart_drop_roundtrip :
    ∀ (project : Project) (dt : DataTransfer) (st : ProjectState),
      (dragStartHandler project dt).getData "text/plain" = project.id ∧
      (dragStartHandler project dt).effectAllowed = "move" ∧
      dropHandler .active (dragStartHandler project dt) st
          = moveProject st project.id ProjectStatus.active ∧
      dropHandler .finished (dragStartHandler project dt) st
          = moveProject st project.id ProjectStatus.finished := by
  intro project dt st
  have hget : (dragStartHandler project dt).getData "text/plain" = project.id := by
    simp [dragStartHandler, DataTransfer.setData, DataTransfer.getData, List.lookup]
  refine ⟨hget, rfl, ?_, ?_⟩ <;>
    simp [dropHandler, ListType.targetStatus, hget]

/-- Claim C9: a drop whose payload lacks the `text/plain` field makes
`getData` return the empty string; since no stored item has an empty identity,
the resulting `moveProject` call changes no state and emits no notification. -/
theorem dropHandler_missing_payload_noop :
    ∀ (ty : ListType) (dt : DataTransfer) (st : ProjectState),
      dt.data.lookup "text/plain" = none →
      (∀ p ∈ st.projects, p.id ≠ "") →
      dropHandler ty dt st = (st, []) := by
  intro ty dt st hlookup hids
  have hget : dt.getData "text/plain" = "" := by
    simp [DataTransfer.getData, hlookup]
  have hany : st.projects.any (fun p => p.id == "") = false := by
    rw [List.any_eq_false]
    intro p hp
    simp [hids p hp]
  simp [dropHandler, hget, moveProject, hany]

/-- Claim C9 witness: a payload carrying only `text/html` leaves a populated
store untouched and notifies nobody. -/
theorem dropHandler_missing_payload_noop_witness :
    (DataTransfer.mk [("text/html", "x")] "").data.lookup "text/plain" = none ∧
    (∀ p ∈ (ProjectState.mk [sampleA] [0]).projects, p.id ≠ "") ∧
    dropHandler .active ⟨[("text/html", "x")], ""⟩ ⟨[sampleA], [0]⟩
      = (⟨[sampleA], [0]⟩, []) := by
  refine ⟨by decide, by decide, ?_⟩
  exact dropHandler_missing_payload_noop .active ⟨[("text/html", "x")], ""⟩
    ⟨[sampleA], [0]⟩ (by decide) (by decide)

/-- Helper: `setStatusFirst` rewrites exactly the first matching project. -/
theorem setStatusFirst_first_match (id : String) (s : ProjectStatus)
    (p : Project) (post : List Project) (hp : p.id = id) :
    ∀ pre : List Project, (∀ q ∈ pre, q.id ≠ id) →
      setStatusFirst (pre ++ p :: post) id s
        = pre ++ { p with status := s } :: post := by
  intro pre
  induction pre with
  | nil =>
    intro _
    simp [setStatusFirst, hp]
  | cons q rest ih =>
    intro hq
    have hqid : (q.id == id) = false := by
      simp [hq q (List.mem_cons_self q rest)]
    simp only [List.cons_append, setStatusFirst, hqid, Bool.false_eq_true,
      if_false, List.append_eq]
    rw [ih fun r hr => hq r (List.mem_cons_of_mem q hr)]

/-- Helper: a list containing a matching id splits at its first match. -/
theorem exists_first_id (id : String) :
    ∀ ps : List Project, (∃ p ∈ ps, p.id = id) →
      ∃ pre p post, ps = pre ++ p :: post ∧ p.id = id ∧
        ∀ q ∈ pre, q.id ≠ id := by
  intro ps
  induction ps with
  | nil =>
    rintro ⟨p, hp, -⟩
    exact absurd hp (List.not_mem_nil p)
  | cons x xs ih =>
    intro hex
    by_cases hx : x.id = id
    · exact ⟨[], x, xs, rfl, hx, by simp⟩
    · have hxs : ∃ p ∈ xs, p.id = id := by
        obtain ⟨p, hp, hpid⟩ := hex
        rcases List.mem_cons.mp hp with rfl | hmem
        · exact absurd hpid hx
        · exact ⟨p, hmem, hpid⟩
      obtain ⟨pre, p, post, hsplit, hpid, hpre⟩ := ih hxs
      refine ⟨x :: pre, p, post, by rw [hsplit]; rfl, hpid, ?_⟩
      intro q hq
      rcases List.mem_cons.mp hq with rfl | hq2
      · exact hx
      · exact hpre q hq2

/-- Claim C2: `moveProject` on an absent identity is a no-op that notifies
nobody; on a present identity it replaces exactly the status of the first
matching item, keeps every other field and item and the listener list intact,
and notifies every listener, in registration order, with the full updated
sequence. -/
theorem moveProject_spec_correct :
    ∀ (st : ProjectState) (id : String) (s : ProjectStatus),
      ((∀ p ∈ st.projects, p.id ≠ id) → moveProject st id s = (st, [])) ∧
      (∀ (pre : List Project) (p : Project) (post : List Project),
        st.projects = pre ++ p :: post → p.id = id → (∀ q ∈ pre, q.id ≠ id) →
        (moveProject st id s).1.projects = pre ++ { p with status := s } :: post ∧
        (moveProject st id s).1.listeners = st.listeners ∧
        (moveProject st id s).2 = st.listeners.map
          (fun l => ⟨l, pre ++ { p with status := s } :: post⟩)) ∧
      ((∃ p ∈ st.projects, p.id = id) →
        ∃ pre p post, st.projects = pre ++ p :: post ∧ p.id = id ∧
          (∀ q ∈ pre, q.id ≠ id) ∧
          (moveProject st id s).1.projects
              = pre ++ { p with status := s } :: post ∧
          (moveProject st id s).1.listeners = st.listeners ∧
          (moveProject st id s).2 = st.listeners.map
            (fun l => ⟨l, pre ++ { p with status := s } :: post⟩)) := by
  intro st id s
  have hfound : ∀ (pre : List Project) (p : Project) (post : List Project),
      st.projects = pre ++ p :: post → p.id = id → (∀ q ∈ pre, q.id ≠ id) →
      (moveProject st id s).1.projects = pre ++ { p with status := s } :: post ∧
      (moveProject st id s).1.listeners = st.listeners ∧
      (moveProject st id s).2 = st.listeners.map
        (fun l => ⟨l, pre ++ { p with status := s } :: post⟩) := by
    intro pre p post hsplit hp hpre
    have hmem : p ∈ st.projects := by
      rw [hsplit]
      exact List.mem_append_right pre (List.mem_cons_self p post)
    have hany : st.projects.any (fun q => q.id == id) = true := by
      rw [List.any_eq_true]
      exact ⟨p, hmem, by simp [hp]⟩
    have hset : setStatusFirst st.projects id s
        = pre ++ { p with status := s } :: post := by
      rw [hsplit]
      exact setStatusFirst_first_match id s p post hp pre hpre
    simp [moveProject, hany, hset]
  refine ⟨?_, hfound, ?_⟩
  · intro habsent
    have hany : st.projects.any (fun p => p.id == id) = false := by
      rw [List.any_eq_false]
      intro p hp
      simp [habsent p hp]
    simp [moveProject, hany]
  · intro hex
    obtain ⟨pre, p, post, hsplit, hpid, hpre⟩ := exists_first_id id
      st.projects hex
    exact ⟨pre, p, post, hsplit, hpid, hpre, hfound pre p post hsplit hpid hpre⟩

/-- Claim C2 witness: moving the second of two items to Finished updates only
its status and notifies both listeners with the updated sequence. -/
theorem moveProject_spec_correct_witness :
    sampleB.id = "b" ∧ (∀ q ∈ [sampleA], q.id ≠ "b") ∧
    (moveProject ⟨[sampleA, sampleB], [0, 1]⟩ "b" .finished).1.projects
        = [sampleA, { sampleB with status := .finished }] ∧
    (moveProject ⟨[sampleA, sampleB], [0, 1]⟩ "b" .finished).2
        = [⟨0, [sampleA, { sampleB with status := .finished }]⟩,
           ⟨1, [sampleA, { sampleB with status := .finished }]⟩] := by
  have h := (moveProject_spec_correct ⟨[sampleA, sampleB], [0, 1]⟩ "b"
      .finished).2.1 [sampleA] sampleB [] rfl rfl (by decide)
  exact ⟨rfl, by decide, h.1, by rw [h.2.2]; rfl⟩

/-- Claim C6, code evaluation: a submission with a too-short description and an
out-of-bounds people count is nevertheless committed: `gatherUserInput` accepts
it, and `submitHandler` mutates the store and notifies the subscriber. -/
theorem submitHandler_commits_invalid :
    gatherUserInput "Task" "ab" 20 = some ("Task", "ab", 20) ∧
    (submitHandler ⟨[], [0]⟩ "Task" "ab" 20 "0.5").1.projects
        = [⟨"0.5", "Task", "ab", 20, .active⟩] ∧
    (submitHandler ⟨[], [0]⟩ "Task" "ab" 20 "0.5").2
        = [⟨0, [⟨"0.5", "Task", "ab", 20, .active⟩]⟩] := by
  refine ⟨by decide, by decide, by decide⟩

/-- Helper: writing one heap cell leaves every other cell unchanged. -/
theorem Heap.read_write_ne (h : Heap) (a b : Nat) (v : List Project)
    (hab : b ≠ a) : (h.write a v).read b = h.read b := by
  unfold Heap.write Heap.read
  have : ∀ (l : List (List Project)) (i j : Nat), j ≠ i →
      (l.set i v).getD j [] = l.getD j [] := by
    intro l
    induction l with
    | nil => intro i j _; simp [List.set]
    | cons x xs ih =>
      intro i j hij
      cases i with
      | zero =>
        cases j with
        | zero => exact absurd rfl hij
        | succ j => simp [List.set]
      | succ i =>
        cases j with
        | zero => simp [List.set]
        | succ j =>
          simp only [List.set, List.getD_cons_succ]
          exact ih i j (by omega)
  exact this h.cells a b hab

/-- Helper: writing a heap cell preserves the number of cells. -/
theorem Heap.write_length (h : Heap) (a : Nat) (v : List Project) :
    (h.write a v).cells.length = h.cells.length := by
  simp [Heap.write]

/-- Helper: an existing cell reads the same after an allocation. -/
theorem Heap.read_alloc_old (h : Heap) (v : List Project) (a : Nat)
    (ha : a < h.cells.length) : (h.alloc v).1.read a = h.read a := by
  unfold Heap.alloc Heap.read
  simp only
  have : ∀ (l l2 : List (List Project)) (i : Nat), i < l.length →
      (l ++ l2).getD i [] = l.getD i [] := by
    intro l
    induction l with
    | nil => intro l2 i hi; simp at hi
    | cons x xs ih =>
      intro l2 i hi
      cases i with
      | zero => simp
      | succ i =>
        simp only [List.cons_append, List.getD_cons_succ]
        exact ih l2 i (by simpa using hi)
  exact this h.cells [v] a ha

/-- Helper: the freshly allocated cell reads back the allocated value. -/
theorem Heap.read_alloc_new (h : Heap) (v : List Project) :
    (h.alloc v).1.read h.cells.length = v := by
  unfold Heap.alloc Heap.read
  simp only
  have : ∀ l : List (List Project), (l ++ [v]).getD l.length [] = v := by
    intro l
    induction l with
    | nil => rfl
    | cons x xs ih =>
      simp only [List.cons_append, List.length_cons, List.getD_cons_succ]
      exact ih
  exact this h.cells

/-- Helper: an allocation grows the heap by exactly one cell. -/
theorem Heap.alloc_length (h : Heap) (v : List Project) :
    (h.alloc v).1.cells.length = h.cells.length + 1 := by
  simp [Heap.alloc]

/-- Helper: the notification loop only grows the heap. -/
theorem notifySlices_length (pa : Nat) :
    ∀ (n : Nat) (h : Heap),
      (notifySlices pa n h).1.cells.length = h.cells.length + n := by
  intro n
  induction n with
  | zero => intro h; rfl
  | succ n ih =>
    intro h
    show (notifySlices pa n (h.alloc (h.read pa)).1).1.cells.length
        = h.cells.length + (n + 1)
    rw [ih, Heap.alloc_length]
    omega

/-- Helper: the notification loop never changes an existing cell. -/
theorem notifySlices_read_preserved (pa : Nat) :
    ∀ (n : Nat) (h : Heap) (a : Nat), a < h.cells.length →
      (notifySlices pa n h).1.read a = h.read a := by
  intro n
  induction n with
  | zero => intro h a _; rfl
  | succ n ih =>
    intro h a ha
    show (notifySlices pa n (h.alloc (h.read pa)).1).1.read a = h.read a
    rw [ih (h.alloc (h.read pa)).1 a (by rw [Heap.alloc_length]; omega)]
    exact Heap.read_alloc_old h _ a ha

/-- Helper: the addresses delivered by the notification loop are fresh,
in-bounds in the final heap, pairwise distinct, and each reads back the
projects array's content at loop entry. -/
theorem notifySlices_addrs (pa : Nat) :
    ∀ (n : Nat) (h : Heap), pa < h.cells.length →
      (notifySlices pa n h).2.length = n ∧
      (∀ a ∈ (notifySlices pa n h).2,
        h.cells.length ≤ a ∧ a < (notifySlices pa n h).1.cells.length ∧
        (notifySlices pa n h).1.read a = h.read pa) ∧
      (notifySlices pa n h).2.Pairwise (· ≠ ·) := by
  intro n
  induction n with
  | zero => intro h _; exact ⟨rfl, by intro a ha; simp [notifySlices] at ha,
      List.Pairwise.nil⟩
  | succ n ih =>
    intro h hpa
    have halloc : (h.alloc (h.read pa)).1.cells.length = h.cells.length + 1 :=
      Heap.alloc_length h _
    have hpa1 : pa < (h.alloc (h.read pa)).1.cells.length := by omega
    obtain ⟨ihlen, ihmem, ihpw⟩ := ih (h.alloc (h.read pa)).1 hpa1
    have hreadpa : (h.alloc (h.read pa)).1.read pa = h.read pa :=
      Heap.read_alloc_old h _ pa hpa
    have hsnd : (notifySlices pa (n + 1) h).2
        = h.cells.length :: (notifySlices pa n (h.alloc (h.read pa)).1).2 := rfl
    have hfst : (notifySlices pa (n + 1) h).1
        = (notifySlices pa n (h.alloc (h.read pa)).1).1 := rfl
    refine ⟨by rw [hsnd]; simp [ihlen], ?_, ?_⟩
    · intro a ha
      rw [hsnd] at ha
      rcases List.mem_cons.mp ha with h0 | hrest
      · subst h0
        refine ⟨Nat.le_refl _, ?_, ?_⟩
        · rw [hfst, notifySlices_length]
          omega
        · rw [hfst, notifySlices_read_preserved pa n _ _ (by omega)]
          exact Heap.read_alloc_new h _
      · obtain ⟨hle, hlt, hread⟩ := ihmem a hrest
        refine ⟨by omega, by rw [hfst]; exact hlt, ?_⟩
        rw [hfst, hread, hreadpa]
    · rw [hsnd]
      refine List.Pairwise.cons ?_ ihpw
      intro b hb
      have := (ihmem b hb).1
      rw [halloc] at this
      omega

/-- Claim C4: in the heap model, each `addProjectRef` hands every listener a
freshly allocated copy of the projects array: the delivered addresses are
pairwise distinct and distinct from the store's array, each holds the full
current sequence, mutating one copy affects neither another copy nor the
store's array, and a subsequent store mutation leaves previously delivered
copies unchanged. -/
theorem snapIndep_notify (st : StoreRef) (h1 : Heap)
    (hv1 : st.projectsAddr < h1.cells.length) :
    SnapIndep st (notifySlices st.projectsAddr st.numListeners h1).1
      (notifySlices st.projectsAddr st.numListeners h1).2 := by
  obtain ⟨hlen, hmem, hpw⟩ := notifySlices_addrs st.projectsAddr
    st.numListeners h1 hv1
  have hne : ∀ a ∈ (notifySlices st.projectsAddr st.numListeners h1).2,
      a ≠ st.projectsAddr := by
    intro a ha
    have h1a := (hmem a ha).1
    omega
  refine ⟨hlen, hpw, hne, ?_, ?_, ?_⟩
  · intro a ha
    rw [(hmem a ha).2.2,
      notifySlices_read_preserved st.projectsAddr st.numListeners h1
        st.projectsAddr hv1]
  · intro a ha v
    exact ⟨fun b _ hba => Heap.read_write_ne _ a b v hba,
      Heap.read_write_ne _ a st.projectsAddr v (Ne.symm (hne a ha))⟩
  · intro a ha id2 title2 description2 people2
    obtain ⟨hle, hlt, _⟩ := hmem a ha
    have hane : a ≠ st.projectsAddr := by omega
    show (notifySlices st.projectsAddr st.numListeners
        ((notifySlices st.projectsAddr st.numListeners h1).1.write
          st.projectsAddr
          ((notifySlices st.projectsAddr st.numListeners h1).1.read
              st.projectsAddr ++
            [⟨id2, title2, description2, people2, .active⟩]))).1.read a
      = (notifySlices st.projectsAddr st.numListeners h1).1.read a
    rw [notifySlices_read_preserved st.projectsAddr st.numListeners _ a
      (by rw [Heap.write_length]; exact hlt)]
    exact Heap.read_write_ne _ st.projectsAddr a _ hane

/-- Claim C4: in the heap model, each `addProjectRef` hands every listener a
freshly allocated copy of the projects array: the delivered addresses are
pairwise distinct and distinct from the store's array, each holds the full
current sequence, mutating one copy affects neither another copy nor the
store's array, and a subsequent store mutation leaves previously delivered
copies unchanged. -/
theorem addProjectRef_snapshot_independence
    (h : Heap) (st : StoreRef) (hv : st.projectsAddr < h.cells.length)
    (id title description : String) (people : Int) :
    SnapIndep st (addProjectRef h st id title description people).1
      (addProjectRef h st id title description people).2 := by
  show SnapIndep st
    (notifySlices st.projectsAddr st.numListeners
      (h.write st.projectsAddr (h.read st.projectsAddr ++
        [⟨id, title, description, people, .active⟩]))).1
    (notifySlices st.projectsAddr st.numListeners
      (h.write st.projectsAddr (h.read st.projectsAddr ++
        [⟨id, title, description, people, .active⟩]))).2
  exact snapIndep_notify st _ (by rw [Heap.write_length]; exact hv)

/-- Claim C4 witness: one store array and two listeners, from a one-cell
heap. -/
theorem addProjectRef_snapshot_independence_witness :
    (StoreRef.mk 0 2).projectsAddr < (Heap.mk [[]]).cells.length ∧
    SnapIndep ⟨0, 2⟩ (addProjectRef ⟨[[]]⟩ ⟨0, 2⟩ "x" "t" "d" 1).1
      (addProjectRef ⟨[[]]⟩ ⟨0, 2⟩ "x" "t" "d" 1).2 :=
  ⟨by decide,
   addProjectRef_snapshot_independence ⟨[[]]⟩ ⟨0, 2⟩ (by decide) "x" "t" "d" 1⟩

/-- Claim C7 witness for the amended statement: a payload whose first type is
`text/plain` is accepted. -/
theorem dragOverHandler_first_type_spec_witness :
    dragOverHandler (some ["text/plain"]) = ⟨true, true⟩ :=
  (dragOverHandler_first_type_spec (some ["text/plain"])).1.mpr
    ⟨["text/plain"], rfl, rfl⟩
